import Mathlib

/-
  Verification development for the bunchive backup tool.

  The embedding models the streaming pipeline of src/backup.ts and
  src/restore.ts at the byte level (bytes are Nat values, streams are lists
  of chunks), and the retention logic of src/cleanup.ts over directory
  listings (lists of file names).  External collaborators (the AES-CTR
  keystream of node:crypto, the pluggable compression codecs, the tar
  container of tar-stream, and the hash functions) are taken as function
  parameters; everything this repository itself does - IV framing, stream
  order, checksum wiring, sink fan-out, name filtering, timestamp parsing
  and sorting - is modelled concretely from the source.
-/

namespace Bunchive

/-- IV_SIZE from src/common.ts. -/
def IV_SIZE : Nat := 16

/-- Byte-wise XOR of a list against a keystream, starting at index i.
    Models the CTR-mode cipher of createCipheriv / createDecipheriv: in CTR
    mode both update chains XOR the data with the keystream bytes derived
    from (key, iv), with the position carried across chunks. -/
def ctrXorFrom (f : Nat → Nat) : Nat → List Nat → List Nat
  | _, [] => []
  | i, b :: bs => (b ^^^ f i) :: ctrXorFrom f (i + 1) bs

/-- EncryptionStream / DecryptionStream body: XOR the whole byte sequence
    with the keystream ks key iv starting at position 0.  In CTR mode the
    encrypt and decrypt transforms are the same operation. -/
def encryptBytes (ks : List Nat → List Nat → Nat → Nat) (key iv : List Nat)
    (data : List Nat) : List Nat :=
  ctrXorFrom (ks key iv) 0 data

/-- randomBytes n from node:crypto: n bytes drawn from an entropy source. -/
def randomBytes (entropy : Nat → Nat) (n : Nat) : List Nat :=
  (List.range n).map entropy

/-- The archive bytes produced by backup (src/backup.ts): a fresh 16-byte IV
    (EncryptionStream default argument randomBytes(16)), followed by the
    CTR encryption of compress(tar(files)), exactly as assembled by
    prependIv.  compressF models the CompressionStream codec and tarF the
    tar-stream pack stage. -/
def backupArchive (ks : List Nat → List Nat → Nat → Nat) (entropy : Nat → Nat)
    (compressF : List Nat → List Nat)
    (tarF : List (String × List Nat) → List Nat)
    (key : List Nat) (files : List (String × List Nat)) : List Nat :=
  randomBytes entropy 16 ++
    encryptBytes ks key (randomBytes entropy 16) (compressF (tarF files))

/-- writeChecksumFiles sidecar contents: the hex digest plus a newline. -/
def sidecarContent (checksum : String) : String := checksum ++ "\n"

/-- node path.join for the plain relative entry names used by the tar
    stage (no trailing slashes, no dot segments). -/
def joinPath (dir name : String) : String := dir ++ "/" ++ name

/-- The restore pipeline of src/restore.ts up to and including extraction.
    The source file is read as a list of chunks; restore inspects only the
    first chunk for the IV check, takes the first 16 bytes as IV, and feeds
    the rest of the first chunk followed by all later chunks through the
    decipher, the decompressor (decompressF, which can fail) and the tar
    extractor (untarF, which can fail); each entry is materialized at
    join(outputDir, name) with its content verbatim. -/
def restoreRun (ks : List Nat → List Nat → Nat → Nat)
    (decompressF : List Nat → Option (List Nat))
    (untarF : List Nat → Option (List (String × List Nat)))
    (key : List Nat) (outputDir : String) (chunks : List (List Nat)) :
    Except String (List (String × List Nat)) :=
  match chunks with
  | [] => .error "Backup file is too small to contain IV"
  | c0 :: rest =>
    if c0.length < IV_SIZE then .error "Backup file is too small to contain IV"
    else
      let iv := c0.take IV_SIZE
      let ciphertext := c0.drop IV_SIZE ++ rest.flatten
      match decompressF (encryptBytes ks key iv ciphertext) with
      | Option.none => .error "Decompression failed"
      | Option.some plainTar =>
        match untarF plainTar with
        | Option.none => .error "Tar extraction failed"
        | Option.some entries =>
          .ok (entries.map (fun e => (joinPath outputDir e.1, e.2)))

/-- Whitespace characters stripped by String.prototype.trim (the ones that
    can occur around a hex digest line). -/
def isWsp (c : Char) : Bool :=
  c == ' ' || c == '\n' || c == '\t' || c == '\r'

/-- String.prototype.trim: strip leading and trailing whitespace. -/
def jsTrim (s : String) : String :=
  String.mk (((s.data.dropWhile isWsp).reverse.dropWhile isWsp).reverse)

/-- verifyChecksumFile from src/restore.ts: a missing sidecar skips
    verification; otherwise the trimmed sidecar contents are compared for
    exact string equality with the computed digest. -/
def verifyChecksumFile (sidecar : Option String) (computed : String) :
    Except String Unit :=
  match sidecar with
  | Option.none => .ok ()
  | Option.some contents =>
    let expected := jsTrim contents
    if computed = expected then .ok ()
    else .error ("Checksum verification failed. Expected " ++ expected ++
      ", got " ++ computed)

/-- The whole restore call: extraction happens first; afterwards, when
    verifyChecksum is set, computeFileHash rejects s3 sources, otherwise it
    re-reads the source bytes and computes the keyed HMAC digest
    (createHmac("sha256", key) in src/restore.ts), which is then compared
    against the sidecar by verifyChecksumFile.  The first component is the
    list of files written to disk (extraction output is left in place even
    when verification fails afterwards). -/
def restoreFull (ks : List Nat → List Nat → Nat → Nat)
    (decompressF : List Nat → Option (List Nat))
    (untarF : List Nat → Option (List (String × List Nat)))
    (hmac : List Nat → List Nat → String)
    (key : List Nat) (outputDir : String) (chunks : List (List Nat))
    (verifyChecksum : Bool) (sourceIsS3 : Bool) (sidecar : Option String) :
    List (String × List Nat) × Except String Unit :=
  match restoreRun ks decompressF untarF key outputDir chunks with
  | .error e => ([], .error e)
  | .ok written =>
    if verifyChecksum then
      if sourceIsS3 then (written, .error "Cannot compute hash for S3 files")
      else (written, verifyChecksumFile sidecar (hmac key chunks.flatten))
    else (written, .ok ())

/-- Observable behavior of one fan-out sink (a Bun.FileSink): whether its
    chunk writes/flushes reject, and whether its end() call rejects. -/
structure SinkBehavior where
  writeFails : Bool
  endFails : Bool
deriving DecidableEq, Repr

/-- The per-chunk Promise.allSettled outcome vector for one chunk: one
    settled result per sink. -/
def settleChunk (sinks : List SinkBehavior) : List Bool :=
  sinks.map (fun s => !s.writeFails)

/-- writeToMultipleSinks from src/backup.ts: for every chunk the writes are
    settled and the outcome vector is discarded (the allSettled result is
    never inspected); afterwards end() is awaited on each sink in order,
    and the first rejection propagates. -/
def writeToMultipleSinksM (chunks : List (List Nat))
    (sinks : List SinkBehavior) : Except String Unit :=
  let _settled := chunks.map (fun _ => settleChunk sinks)
  match sinks.find? (fun s => s.endFails) with
  | Option.some _ => .error "sink finalization failed"
  | Option.none => .ok ()

/-- The result backup returns to the caller (src/backup.ts): after
    writeToMultipleSinks completes, the checksum is awaited and returned;
    nothing else about the sinks is part of the result. -/
def backupRun (checksum : String) (chunks : List (List Nat))
    (sinks : List SinkBehavior) : Except String String :=
  match writeToMultipleSinksM chunks sinks with
  | .error e => .error e
  | .ok _ => .ok checksum

/-- A character the JS regex dot matches: anything but a line terminator. -/
def isRegexAny (c : Char) : Bool :=
  !(c == '\n' || c == '\r' || c == '\u2028' || c == '\u2029')

/-- List prefix test on characters. -/
def hasPrefixL : List Char → List Char → Bool
  | [], _ => true
  | _ :: _, [] => false
  | p :: ps, c :: cs => p == c && hasPrefixL ps cs

/-- Lazy scan of the regex fragment (.+?)\.tar\. after the group already
    holds at least one character: succeed with the shortest group whose end
    is followed by the literal ".tar.", never letting the group cross a
    newline (the JS dot does not match newlines). -/
def tsLoop (tar : List Char) : List Char → List Char → Option (List Char)
  | g, [] => if hasPrefixL tar [] then some g.reverse else none
  | g, c :: rs =>
    if hasPrefixL tar (c :: rs) then some g.reverse
    else if isRegexAny c then tsLoop tar (c :: g) rs
    else none

/-- extractTimestamp from src/cleanup.ts: the regex
    /^backup_(.+?)\.tar\./ with a lazy, nonempty group; null when the name
    does not carry such a component. -/
def extractTimestamp (name : String) : Option String :=
  if hasPrefixL "backup_".data name.data then
    match name.data.drop 7 with
    | [] => none
    | c :: rs =>
      if isRegexAny c then
        (tsLoop ".tar.".data [c] rs).map (fun l => String.mk l)
      else none
  else none

/-- Tail of the cleanup filter regex: one any-character, the literal tar,
    one any-character, the literal algorithm name, one any-character and the
    literal crypt (the dots of the glob are unescaped in the source, so each
    matches an arbitrary non-newline character). -/
def matchTail (alg : String) : List Char → Bool
  | c1 :: rest =>
    isRegexAny c1 && hasPrefixL ['t', 'a', 'r'] rest &&
    (match rest.drop 3 with
     | c2 :: rest2 =>
       isRegexAny c2 && hasPrefixL alg.data rest2 &&
       (match rest2.drop alg.length with
        | c3 :: rest3 => isRegexAny c3 && rest3 == ['c', 'r', 'y', 'p', 't']
        | [] => false)
     | [] => false)
  | [] => false

/-- The filter used by cleanup (src/cleanup.ts): the glob
    backup_*.tar.alg.crypt is turned into a regex by replacing only the
    star with dot-star, leaving the dots unescaped, so the test is
    anchored-both-ends: backup_ then any non-newline run, then any char,
    tar, any char, the algorithm name, any char, crypt.  The suffix after
    the wildcard has fixed length alg.length + 11, which forces the split
    position. -/
def codeMatch (alg : String) (name : String) : Bool :=
  let cs := name.data
  let suffLen := alg.length + 11
  hasPrefixL "backup_".data cs &&
  decide (7 + suffLen ≤ cs.length) &&
  ((cs.drop 7).take (cs.length - 7 - suffLen)).all isRegexAny &&
  matchTail alg (cs.drop (cs.length - suffLen))

/-- Modelled from the claim wording for C10: the archive name pattern
    backup_*.tar.alg.crypt read as a glob with literal dots - the name must
    start with backup_ and end with the literal suffix .tar.alg.crypt. -/
def claimPatternMatch (alg : String) (name : String) : Bool :=
  let suffix := ("." ++ "tar" ++ "." ++ alg ++ "." ++ "crypt").data
  hasPrefixL "backup_".data name.data &&
  decide (7 + suffix.length ≤ name.data.length) &&
  name.data.drop (name.data.length - suffix.length) == suffix

/-- Sign model of localeCompare for the ASCII timestamp tokens: negative,
    zero or positive according to lexicographic string order. -/
def strCmp (a b : String) : Int :=
  if a < b then -1 else if b < a then 1 else 0

/-- The sort comparator of src/cleanup.ts: when either name lacks a
    timestamp the comparison yields 0; otherwise the timestamps are
    compared descending (timestampB.localeCompare(timestampA)). -/
def cmpBy (g : String → Option String) (a b : String) : Int :=
  match g a, g b with
  | Option.some ta, Option.some tb => strCmp tb ta
  | _, _ => 0

/-- Stable insertion of one element under a JS comparator: the new element
    is placed before the first existing element it strictly precedes
    (comparator value negative) and after every element it ties with. -/
def insertS (cmp : String → String → Int) (x : String) :
    List String → List String
  | [] => [x]
  | y :: ys => if cmp x y < 0 then x :: y :: ys else y :: insertS cmp x ys

/-- Model of Array.prototype.sort with a comparator: a stable comparison
    sort (elements comparing 0 keep their relative order, as ECMAScript
    requires of sort and as Bun's engine implements). -/
def jsSort (cmp : String → String → Int) (l : List String) : List String :=
  l.foldl (fun acc x => insertS cmp x acc) []

/-- The timestamp key a name sorts under (empty for malformed names; only
    used in theorems about lists of well-formed names). -/
def tsOf (g : String → Option String) (f : String) : String :=
  (g f).getD ""

/-- The sorted (newest first) matching list of cleanupLocalBackups. -/
def sortedBackupsL (alg : String) (dir : List String) : List String :=
  jsSort (cmpBy extractTimestamp) (dir.filter (fun f => codeMatch alg f))

/-- The filename of an s3 key: key.split("/").pop() with a fallback to the
    empty string, i.e. the suffix after the last slash. -/
def lastComponent (s : String) : String :=
  String.mk ((s.data.reverse.takeWhile (fun c => c != '/')).reverse)

/-- The sorted matching list of cleanupS3Backups. -/
def sortedBackupsS (alg : String) (keys : List String) : List String :=
  jsSort (cmpBy (fun k => extractTimestamp (lastComponent k)))
    (keys.filter (fun k => codeMatch alg (lastComponent k)))

/-- cleanupLocalBackups from src/cleanup.ts, as the sequence of paths it
    unlinks: nothing when no more than count names match; otherwise every
    matching name past the first count of the descending sort, each
    followed by its .sha256 sidecar. -/
def cleanupLocalBackups (alg : String) (count : Nat) (dir : List String) :
    List String :=
  let backupFiles := dir.filter (fun f => codeMatch alg f)
  if backupFiles.length ≤ count then []
  else
    ((jsSort (cmpBy extractTimestamp) backupFiles).drop count).flatMap
      (fun f => [f, f ++ ".sha256"])

/-- cleanupS3Backups from src/cleanup.ts, as the sequence of keys it
    deletes. -/
def cleanupS3Backups (alg : String) (count : Nat) (keys : List String) :
    List String :=
  let backupFiles := keys.filter (fun k => codeMatch alg (lastComponent k))
  if backupFiles.length ≤ count then []
  else
    ((jsSort (cmpBy (fun k => extractTimestamp (lastComponent k)))
        backupFiles).drop count).flatMap
      (fun f => [f, f ++ ".sha256"])

/-- The timestamp naming modes of src/common.ts. -/
inductive TimestampFormat
  | iso
  | unix
  | none
deriving DecidableEq, Repr

/-- A cleanup destination with its current listing: a local directory or an
    s3 bucket prefix (the two branches of cleanupOldBackups). -/
inductive Destination
  | localDir (files : List String)
  | s3 (keys : List String)
deriving DecidableEq, Repr

/-- cleanupOldBackups from src/cleanup.ts: a disabled timestamp format is a
    configuration error thrown before any listing; otherwise the local or
    s3 variant runs and its deletions are reported. -/
def cleanupOldBackups (tf : TimestampFormat) (alg : String) (count : Nat)
    (dest : Destination) : Except String (List String) :=
  if tf = TimestampFormat.none then
    .error "Sliding backup window requires timestamp format to be enabled"
  else
    match dest with
    | .localDir files => .ok (cleanupLocalBackups alg count files)
    | .s3 keys => .ok (cleanupS3Backups alg count keys)

/-- Effect of a cleanup result on a listing: an error deletes nothing; a
    deletion list removes exactly the named entries (unlink of a missing
    sidecar is a caught no-op in the source). -/
def applyCleanup (files : List String) (r : Except String (List String)) :
    List String :=
  match r with
  | .error _ => files
  | .ok dels => files.filter (fun f => !dels.contains f)

/-- XOR with the same keystream twice is the identity: CTR decryption
    undoes CTR encryption. -/
theorem ctrXorFrom_ctrXorFrom (f : Nat → Nat) (l : List Nat) :
    ∀ i : Nat, ctrXorFrom f i (ctrXorFrom f i l) = l := by
  induction l with
  | nil => intro i; rfl
  | cons b bs ih =>
    intro i
    simp [ctrXorFrom, ih, Nat.xor_cancel_right]

/-- CTR decryption with the same key and IV inverts CTR encryption. -/
theorem encryptBytes_encryptBytes (ks : List Nat → List Nat → Nat → Nat)
    (key iv data : List Nat) :
    encryptBytes ks key iv (encryptBytes ks key iv data) = data :=
  ctrXorFrom_ctrXorFrom _ _ _

/-- randomBytes always yields exactly the requested number of bytes. -/
theorem randomBytes_length (entropy : Nat → Nat) (n : Nat) :
    (randomBytes entropy n).length = n := by
  simp [randomBytes]

/-- Taking exactly the length of the left part of an append returns it. -/
theorem take_append_full {α : Type} (n : Nat) (l₁ l₂ : List α)
    (h : l₁.length = n) : (l₁ ++ l₂).take n = l₁ := by
  subst h; exact List.take_left l₁ l₂

/-- Dropping exactly the length of the left part of an append removes it. -/
theorem drop_append_full {α : Type} (n : Nat) (l₁ l₂ : List α)
    (h : l₁.length = n) : (l₁ ++ l₂).drop n = l₂ := by
  subst h; exact List.drop_left l₁ l₂

/-- Helper: when the archive bytes arrive with a first chunk holding at
    least the IV, the restore pipeline recovers exactly the archived
    entries, placed under the output directory. -/
theorem restoreRun_of_backup (ks : List Nat → List Nat → Nat → Nat)
    (entropy : Nat → Nat) (compressF : List Nat → List Nat)
    (decompressF : List Nat → Option (List Nat))
    (tarF : List (String × List Nat) → List Nat)
    (untarF : List Nat → Option (List (String × List Nat)))
    (key : List Nat) (outputDir : String) (files : List (String × List Nat))
    (c0 : List Nat) (rest : List (List Nat))
    (hjoin : (c0 :: rest).flatten =
      backupArchive ks entropy compressF tarF key files)
    (hc0 : IV_SIZE ≤ c0.length)
    (hdc : decompressF (compressF (tarF files)) = Option.some (tarF files))
    (hut : untarF (tarF files) = Option.some files) :
    restoreRun ks decompressF untarF key outputDir (c0 :: rest)
      = .ok (files.map (fun e => (joinPath outputDir e.1, e.2))) := by
  have hlen : (randomBytes entropy 16).length = 16 := randomBytes_length _ _
  have hj : c0 ++ rest.flatten = randomBytes entropy 16 ++
      encryptBytes ks key (randomBytes entropy 16) (compressF (tarF files)) := by
    simpa [backupArchive] using hjoin
  have hc0' : (16 : Nat) ≤ c0.length := hc0
  have htake : c0.take 16 = randomBytes entropy 16 := by
    have h := congrArg (List.take 16) hj
    rwa [List.take_append_of_le_length hc0', take_append_full 16 _ _ hlen] at h
  have hdrop : c0.drop 16 ++ rest.flatten =
      encryptBytes ks key (randomBytes entropy 16) (compressF (tarF files)) := by
    have h := congrArg (List.drop 16) hj
    rwa [List.drop_append_of_le_length hc0', drop_append_full 16 _ _ hlen] at h
  have hnlt : ¬ (c0.length < 16) := Nat.not_lt.mpr hc0'
  simp only [restoreRun, IV_SIZE, if_neg hnlt, htake, hdrop,
    encryptBytes_encryptBytes, hdc, hut]

/-- C1: restoring an archive produced by backup with the same key,
    keystream and algorithm pair writes back every archived file
    byte-for-byte at join(outputDir, relativePath); when checksum
    verification is disabled the restore call also reports success.  The
    codec and container stages are external collaborators, used here under
    their round-trip contracts; the hypotheses on the chunking only require
    the re-read stream to deliver the archive bytes with the IV inside the
    first chunk (a single-chunk read always satisfies this since the
    archive starts with the 16-byte IV). -/
theorem backup_restore_roundtrip (ks : List Nat → List Nat → Nat → Nat)
    (entropy : Nat → Nat) (compressF : List Nat → List Nat)
    (decompressF : List Nat → Option (List Nat))
    (tarF : List (String × List Nat) → List Nat)
    (untarF : List Nat → Option (List (String × List Nat)))
    (hmac : List Nat → List Nat → String)
    (key : List Nat) (outputDir : String) (files : List (String × List Nat))
    (c0 : List Nat) (rest : List (List Nat))
    (hjoin : (c0 :: rest).flatten =
      backupArchive ks entropy compressF tarF key files)
    (hc0 : IV_SIZE ≤ c0.length)
    (hdc : decompressF (compressF (tarF files)) = Option.some (tarF files))
    (hut : untarF (tarF files) = Option.some files)
    (verify sourceIsS3 : Bool) (sidecar : Option String) :
    (restoreFull ks decompressF untarF hmac key outputDir (c0 :: rest)
        verify sourceIsS3 sidecar).1
      = files.map (fun e => (joinPath outputDir e.1, e.2)) ∧
    restoreFull ks decompressF untarF hmac key outputDir (c0 :: rest)
        false sourceIsS3 sidecar
      = (files.map (fun e => (joinPath outputDir e.1, e.2)), .ok ()) := by
  have hrun := restoreRun_of_backup ks entropy compressF decompressF tarF
    untarF key outputDir files c0 rest hjoin hc0 hdc hut
  constructor
  · cases verify <;> cases sourceIsS3 <;> simp [restoreFull, hrun]
  · simp [restoreFull, hrun]

/-- Witness for C1 at a concrete instance. -/
theorem backup_restore_roundtrip_witness :
    (restoreFull (fun _ _ _ => 0) (fun x => Option.some x)
        (fun _ => Option.some [("a.txt", [3, 4])]) (fun _ _ => "h") [] "out"
        (backupArchive (fun _ _ _ => 0) (fun _ => 0) id (fun _ => [9]) []
          [("a.txt", [3, 4])] :: [])
        true false Option.none).1
      = [("a.txt", [3, 4])].map (fun e => (joinPath "out" e.1, e.2)) ∧
    restoreFull (fun _ _ _ => 0) (fun x => Option.some x)
        (fun _ => Option.some [("a.txt", [3, 4])]) (fun _ _ => "h") [] "out"
        (backupArchive (fun _ _ _ => 0) (fun _ => 0) id (fun _ => [9]) []
          [("a.txt", [3, 4])] :: [])
        false false Option.none
      = ([("a.txt", [3, 4])].map (fun e => (joinPath "out" e.1, e.2)), .ok ()) :=
  backup_restore_roundtrip (fun _ _ _ => 0) (fun _ => 0) id
    (fun x => Option.some x) (fun _ => [9])
    (fun _ => Option.some [("a.txt", [3, 4])]) (fun _ _ => "h") [] "out"
    [("a.txt", [3, 4])] _ [] (by simp) (by decide) rfl rfl true false
    Option.none

/-- C2 (code bug): backup persists the plain SHA-256 hex digest in the
    sidecar, but restore recomputes a keyed HMAC-SHA-256 digest and
    compares it by exact string equality against the trimmed sidecar, so
    verification of an unmodified archive fails whenever the two hex
    strings differ, and a digest differing only in letter case is also
    rejected (the comparison is case-sensitive, not case-insensitive). -/
theorem checksum_digest_mismatch_bug (sha : List Nat → String)
    (hmac : List Nat → List Nat → String)
    (ks : List Nat → List Nat → Nat → Nat)
    (decompressF : List Nat → Option (List Nat))
    (untarF : List Nat → Option (List (String × List Nat)))
    (key : List Nat) (outputDir : String) (chunks : List (List Nat))
    (w : List (String × List Nat))
    (hok : restoreRun ks decompressF untarF key outputDir chunks = .ok w)
    (htrim : jsTrim (sidecarContent (sha chunks.flatten)) = sha chunks.flatten)
    (hne : hmac key chunks.flatten ≠ sha chunks.flatten) :
    restoreFull ks decompressF untarF hmac key outputDir chunks true false
        (Option.some (sidecarContent (sha chunks.flatten)))
      = (w, .error ("Checksum verification failed. Expected " ++
          sha chunks.flatten ++ ", got " ++ hmac key chunks.flatten)) ∧
    verifyChecksumFile (Option.some "ABCD\n") "abcd"
      = .error "Checksum verification failed. Expected ABCD, got abcd" := by
  refine ⟨?_, rfl⟩
  simp [restoreFull, hok, verifyChecksumFile, htrim, hne]

/-- Witness for C2 at a concrete instance. -/
theorem checksum_digest_mismatch_bug_witness :
    restoreFull (fun _ _ _ => 0) (fun x => Option.some x)
        (fun _ => Option.some [("b", [2])]) (fun _ _ => "bb") [] "d"
        [List.replicate 16 1] true false
        (Option.some (sidecarContent "aa"))
      = ([("d/b", [2])], .error
          "Checksum verification failed. Expected aa, got bb") ∧
    verifyChecksumFile (Option.some "ABCD\n") "abcd"
      = .error "Checksum verification failed. Expected ABCD, got abcd" :=
  checksum_digest_mismatch_bug (fun _ => "aa") (fun _ _ => "bb")
    (fun _ _ _ => 0) (fun x => Option.some x)
    (fun _ => Option.some [("b", [2])]) [] "d" [List.replicate 16 1]
    [("d/b", [2])] rfl (by decide) (by decide)

/-- C3 (code bug): the value backup returns is the checksum alone; the
    per-chunk Promise.allSettled outcome vectors are discarded, so any two
    sink behavior lists whose end() failures agree produce identical
    results even when their write failures differ arbitrarily - the caller
    cannot tell which destinations received a complete archive. -/
theorem backup_result_hides_sink_failures (checksum : String)
    (chunks : List (List Nat)) (s1 s2 : List SinkBehavior)
    (hend : s1.any (fun s => s.endFails) = s2.any (fun s => s.endFails)) :
    backupRun checksum chunks s1 = backupRun checksum chunks s2 := by
  unfold backupRun writeToMultipleSinksM
  rcases h1 : s1.find? (fun s => s.endFails) with _ | a <;>
    rcases h2 : s2.find? (fun s => s.endFails) with _ | b
  · simp only [h1, h2]
  · exfalso
    have ha1 : ∀ x ∈ s1, ¬ (x.endFails = true) := by
      simpa using List.find?_eq_none.mp h1
    have hb2 : b.endFails = true := List.find?_some h2
    have hmem : b ∈ s2 := List.mem_of_find?_eq_some h2
    have : s2.any (fun s => s.endFails) = true :=
      List.any_eq_true.mpr ⟨b, hmem, hb2⟩
    rw [← hend] at this
    obtain ⟨x, hx, hxe⟩ := List.any_eq_true.mp this
    exact ha1 x hx hxe
  · exfalso
    have ha2 : ∀ x ∈ s2, ¬ (x.endFails = true) := by
      simpa using List.find?_eq_none.mp h2
    have hb1 : a.endFails = true := List.find?_some h1
    have hmem : a ∈ s1 := List.mem_of_find?_eq_some h1
    have : s1.any (fun s => s.endFails) = true :=
      List.any_eq_true.mpr ⟨a, hmem, hb1⟩
    rw [hend] at this
    obtain ⟨x, hx, hxe⟩ := List.any_eq_true.mp this
    exact ha2 x hx hxe
  · simp only [h1, h2]

/-- Witness for C3: one failing writer and one healthy writer are
    indistinguishable from two healthy writers in the backup result. -/
theorem backup_result_hides_sink_failures_witness :
    backupRun "c" [[0]] [⟨true, false⟩, ⟨false, false⟩]
      = backupRun "c" [[0]] [⟨false, false⟩, ⟨false, false⟩] :=
  backup_result_hides_sink_failures "c" [[0]]
    [⟨true, false⟩, ⟨false, false⟩] [⟨false, false⟩, ⟨false, false⟩]
    (by decide)

/-- C4: the archive is exactly the 16-byte IV followed by the stream
    cipher output over compress(tar(entries)) - nothing before, between or
    after: no length prefix, no magic number, no algorithm identifier. -/
theorem archive_wire_layout (ks : List Nat → List Nat → Nat → Nat)
    (entropy : Nat → Nat) (compressF : List Nat → List Nat)
    (tarF : List (String × List Nat) → List Nat)
    (key : List Nat) (files : List (String × List Nat)) :
    backupArchive ks entropy compressF tarF key files
      = randomBytes entropy 16 ++
        encryptBytes ks key (randomBytes entropy 16) (compressF (tarF files)) ∧
    (randomBytes entropy 16).length = 16 ∧
    (backupArchive ks entropy compressF tarF key files).take 16
      = randomBytes entropy 16 ∧
    (backupArchive ks entropy compressF tarF key files).drop 16
      = encryptBytes ks key (randomBytes entropy 16) (compressF (tarF files)) := by
  have hlen : (randomBytes entropy 16).length = 16 := randomBytes_length _ _
  refine ⟨rfl, hlen, ?_, ?_⟩
  · rw [backupArchive]; exact take_append_full 16 _ _ hlen
  · rw [backupArchive]; exact drop_append_full 16 _ _ hlen

/-- C6: a keep-count cleanup with the timestamp mode disabled is rejected
    with the configuration error regardless of the keep count and the
    destination, and the destination contents are unchanged. -/
theorem cleanup_rejects_disabled_timestamps (alg : String) (count : Nat)
    (dest : Destination) (files : List String) :
    cleanupOldBackups TimestampFormat.none alg count dest
      = .error "Sliding backup window requires timestamp format to be enabled" ∧
    applyCleanup files (cleanupOldBackups TimestampFormat.none alg count dest)
      = files := by
  constructor <;> simp [cleanupOldBackups, applyCleanup]

/-- C8: a restore source whose content is shorter than the 16-byte IV
    fails with the size error before any later stage runs, and writes no
    output files, for every chunking of the source and every setting of
    the remaining options. -/
theorem restore_rejects_short_source (ks : List Nat → List Nat → Nat → Nat)
    (decompressF : List Nat → Option (List Nat))
    (untarF : List Nat → Option (List (String × List Nat)))
    (hmac : List Nat → List Nat → String)
    (key : List Nat) (outputDir : String) (chunks : List (List Nat))
    (verify sourceIsS3 : Bool) (sidecar : Option String)
    (h : chunks.flatten.length < IV_SIZE) :
    restoreFull ks decompressF untarF hmac key outputDir chunks verify
        sourceIsS3 sidecar
      = ([], .error "Backup file is too small to contain IV") := by
  cases chunks with
  | nil => rfl
  | cons c0 rest =>
    have hc : c0.length < IV_SIZE := by
      have hle : c0.length ≤ ((c0 :: rest).flatten).length := by
        simp
      omega
    simp [restoreFull, restoreRun, hc]

/-- Witness for C8 on a 3-byte source. -/
theorem restore_rejects_short_source_witness :
    restoreFull (fun _ _ _ => 0) (fun x => Option.some x)
        (fun _ => Option.some []) (fun _ _ => "") [] "out" [[1, 2, 3]] true
        false Option.none
      = ([], .error "Backup file is too small to contain IV") :=
  restore_rejects_short_source (fun _ _ _ => 0) (fun x => Option.some x)
    (fun _ => Option.some []) (fun _ _ => "") [] "out" [[1, 2, 3]] true
    false Option.none (by decide)

/-- C9: with verification enabled, a local restore whose pipeline succeeds
    and whose source has no sidecar succeeds: the missing sidecar skips
    verification silently and is never reported as an error. -/
theorem missing_sidecar_skips_verification
    (ks : List Nat → List Nat → Nat → Nat)
    (decompressF : List Nat → Option (List Nat))
    (untarF : List Nat → Option (List (String × List Nat)))
    (hmac : List Nat → List Nat → String)
    (key : List Nat) (outputDir : String) (chunks : List (List Nat))
    (w : List (String × List Nat))
    (hok : restoreRun ks decompressF untarF key outputDir chunks = .ok w) :
    restoreFull ks decompressF untarF hmac key outputDir chunks true false
        Option.none
      = (w, .ok ()) := by
  simp [restoreFull, hok, verifyChecksumFile]

/-- Witness for C9 at a concrete instance. -/
theorem missing_sidecar_skips_verification_witness :
    restoreFull (fun _ _ _ => 0) (fun x => Option.some x)
        (fun _ => Option.some [("a", [1])]) (fun _ _ => "hh") [] "o"
        [List.replicate 16 0] true false Option.none
      = ([("o/a", [1])], .ok ()) :=
  missing_sidecar_skips_verification (fun _ _ _ => 0)
    (fun x => Option.some x) (fun _ => Option.some [("a", [1])])
    (fun _ _ => "hh") [] "o" [List.replicate 16 0] [("o/a", [1])]
    rfl

/-- Membership in a stable insertion. -/
theorem mem_insertS (cmp : String → String → Int) (x : String) :
    ∀ (l : List String) (y : String),
      y ∈ insertS cmp x l ↔ y = x ∨ y ∈ l := by
  intro l
  induction l with
  | nil => intro y; simp [insertS]
  | cons z zs ih =>
    intro y
    by_cases h : cmp x z < 0
    · simp only [insertS, if_pos h, List.mem_cons]
    · simp only [insertS, if_neg h, List.mem_cons, ih]
      tauto

/-- A stable insertion is a permutation of consing. -/
theorem insertS_perm (cmp : String → String → Int) (x : String) :
    ∀ l : List String, (insertS cmp x l).Perm (x :: l) := by
  intro l
  induction l with
  | nil => simp [insertS]
  | cons z zs ih =>
    rw [insertS]
    by_cases h : cmp x z < 0
    · rw [if_pos h]
    · rw [if_neg h]
      exact (List.Perm.cons z ih).trans (List.Perm.swap x z zs)

/-- The JS comparison sort permutes its input (no element is lost or
    duplicated, and the sort terminates for every comparator). -/
theorem foldl_insert_perm (cmp : String → String → Int) :
    ∀ (l acc : List String),
      (l.foldl (fun a x => insertS cmp x a) acc).Perm (acc ++ l) := by
  intro l
  induction l with
  | nil => intro acc; simp
  | cons x xs ih =>
    intro acc
    have h1 : ((x :: xs).foldl (fun a x => insertS cmp x a) acc)
        = xs.foldl (fun a x => insertS cmp x a) (insertS cmp x acc) := rfl
    rw [h1]
    refine ((ih (insertS cmp x acc)).trans ?_)
    refine (List.Perm.append_right xs (insertS_perm cmp x acc)).trans ?_
    exact (List.perm_middle).symm

/-- jsSort is a permutation of its input. -/
theorem jsSort_perm (cmp : String → String → Int) (l : List String) :
    (jsSort cmp l).Perm l := by
  simpa [jsSort] using foldl_insert_perm cmp l []

/-- On two names with parsed timestamps the comparator is negative exactly
    when the first name carries the larger timestamp (descending order). -/
theorem cmpBy_lt_iff (g : String → Option String) (a b : String)
    (ta tb : String) (ha : g a = Option.some ta)
    (hb : g b = Option.some tb) :
    cmpBy g a b < 0 ↔ tb < ta := by
  simp only [cmpBy, ha, hb, strCmp]
  split_ifs with h1 h2
  · exact iff_of_true (by decide) h1
  · exact iff_of_false (by decide) h1
  · exact iff_of_false (by decide) h1

/-- A name without a parsable timestamp compares equal to everything. -/
theorem cmpBy_none_left (g : String → Option String) (a b : String)
    (ha : g a = Option.none) : cmpBy g a b = 0 := by
  cases hb : g b <;> simp [cmpBy, ha, hb]

/-- A name without a parsable timestamp compares equal to everything, on
    the right as well. -/
theorem cmpBy_none_right (g : String → Option String) (a b : String)
    (hb : g b = Option.none) : cmpBy g a b = 0 := by
  cases ha : g a <;> simp [cmpBy, ha, hb]

/-- Inserting a well-formed name with a fresh timestamp into a list sorted
    descending by timestamp keeps it sorted. -/
theorem pairwise_insertS (g : String → Option String) (x : String)
    (hx : (g x).isSome = true) :
    ∀ l : List String, (∀ y ∈ l, (g y).isSome = true) →
      (∀ y ∈ l, tsOf g y ≠ tsOf g x) →
      l.Pairwise (fun a b => tsOf g b < tsOf g a) →
      (insertS (cmpBy g) x l).Pairwise (fun a b => tsOf g b < tsOf g a) := by
  intro l
  induction l with
  | nil => intro _ _ _; simp [insertS]
  | cons y ys ih =>
    intro hl hd hp
    obtain ⟨tx, htx⟩ := Option.isSome_iff_exists.mp hx
    obtain ⟨ty, hty⟩ := Option.isSome_iff_exists.mp (hl y (by simp))
    rw [insertS]
    by_cases hc : cmpBy g x y < 0
    · rw [if_pos hc]
      have hxy : tsOf g y < tsOf g x := by
        have h := (cmpBy_lt_iff g x y tx ty htx hty).mp hc
        simpa [tsOf, htx, hty] using h
      refine List.Pairwise.cons ?_ hp
      intro z hz
      rcases List.mem_cons.mp hz with rfl | hz2
      · exact hxy
      · exact lt_trans ((List.pairwise_cons.mp hp).1 z hz2) hxy
    · rw [if_neg hc]
      have hyx : tsOf g x < tsOf g y := by
        have hnlt : ¬ tsOf g y < tsOf g x := by
          intro hlt
          apply hc
          refine (cmpBy_lt_iff g x y tx ty htx hty).mpr ?_
          simpa [tsOf, htx, hty] using hlt
        exact lt_of_le_of_ne (not_lt.mp hnlt) ((hd y (by simp)).symm)
      refine List.Pairwise.cons ?_
        (ih (fun z hz => hl z (by simp [hz]))
          (fun z hz => hd z (by simp [hz]))
          (List.pairwise_cons.mp hp).2)
      intro z hz
      rcases (mem_insertS (cmpBy g) x ys z).mp hz with rfl | hz2
      · exact hyx
      · exact (List.pairwise_cons.mp hp).1 z hz2

/-- Running the stable insertion over a list of well-formed names with
    pairwise fresh timestamps, starting from a sorted accumulator, yields a
    list sorted descending by timestamp. -/
theorem pairwise_foldl_insert (g : String → Option String) :
    ∀ (l acc : List String),
      (∀ y ∈ acc, (g y).isSome = true) →
      (∀ y ∈ l, (g y).isSome = true) →
      (∀ a ∈ acc, ∀ b ∈ l, tsOf g a ≠ tsOf g b) →
      l.Pairwise (fun a b => tsOf g a ≠ tsOf g b) →
      acc.Pairwise (fun a b => tsOf g b < tsOf g a) →
      (l.foldl (fun a x => insertS (cmpBy g) x a) acc).Pairwise
        (fun a b => tsOf g b < tsOf g a) := by
  intro l
  induction l with
  | nil => intro acc _ _ _ _ hacc; exact hacc
  | cons x xs ih =>
    intro acc hacc hl hcross hlp haccs
    have hx : (g x).isSome = true := hl x (by simp)
    have step : (insertS (cmpBy g) x acc).Pairwise
        (fun a b => tsOf g b < tsOf g a) :=
      pairwise_insertS g x hx acc hacc
        (fun y hy => hcross y hy x (by simp)) haccs
    have h1 : ((x :: xs).foldl (fun a y => insertS (cmpBy g) y a) acc)
        = xs.foldl (fun a y => insertS (cmpBy g) y a)
            (insertS (cmpBy g) x acc) := rfl
    rw [h1]
    refine ih (insertS (cmpBy g) x acc) ?_ (fun y hy => hl y (by simp [hy]))
      ?_ (List.pairwise_cons.mp hlp).2 step
    · intro y hy
      rcases (mem_insertS (cmpBy g) x acc y).mp hy with rfl | hy2
      · exact hx
      · exact hacc y hy2
    · intro a ha b hb
      rcases (mem_insertS (cmpBy g) x acc a).mp ha with rfl | ha2
      · exact (List.pairwise_cons.mp hlp).1 b hb
      · exact hcross a ha2 b (by simp [hb])

/-- jsSort under the cleanup comparator sorts a list of names with
    pairwise-distinct parsed timestamps descending by timestamp. -/
theorem jsSort_pairwise (g : String → Option String) (l : List String)
    (hwf : ∀ f ∈ l, (g f).isSome = true)
    (hdist : l.Pairwise (fun a b => g a ≠ g b)) :
    (jsSort (cmpBy g) l).Pairwise (fun a b => tsOf g b < tsOf g a) := by
  have hdist2 : l.Pairwise (fun a b => tsOf g a ≠ tsOf g b) := by
    refine List.Pairwise.imp_of_mem ?_ hdist
    intro a b ha hb hne
    obtain ⟨ta, hta⟩ := Option.isSome_iff_exists.mp (hwf a ha)
    obtain ⟨tb, htb⟩ := Option.isSome_iff_exists.mp (hwf b hb)
    simp only [tsOf, hta, htb, Option.getD_some]
    intro h
    exact hne (by rw [hta, htb, h])
  simpa [jsSort] using
    pairwise_foldl_insert g l [] (by simp) hwf (by simp) hdist2 (by simp)

/-- In a pairwise-sorted list every element kept by take is related to
    every element removed by drop. -/
theorem pairwise_take_drop {R : String → String → Prop} {l : List String}
    (h : l.Pairwise R) (n : Nat) :
    ∀ a ∈ l.take n, ∀ b ∈ l.drop n, R a b := by
  have h2 : (l.take n ++ l.drop n).Pairwise R := by
    rw [List.take_append_drop]; exact h
  intro a ha b hb
  exact (List.pairwise_append.mp h2).2.2 a ha b hb

/-- Every name surviving into the dropped tail of the sorted matching list
    was listed and matched the cleanup filter. -/
theorem mem_drop_sort_filter (cmp : String → String → Int)
    (p : String → Bool) (l : List String) (count : Nat) (f : String)
    (hf : f ∈ (jsSort cmp (l.filter p)).drop count) :
    f ∈ l ∧ p f = true := by
  have h1 : f ∈ jsSort cmp (l.filter p) := List.mem_of_mem_drop hf
  have h2 : f ∈ l.filter p := (jsSort_perm cmp (l.filter p)).mem_iff.mp h1
  exact ⟨List.mem_of_mem_filter h2, List.of_mem_filter h2⟩

/-- C5: at a destination whose matching archives all carry well-formed,
    pairwise-distinct timestamps, cleanup with keepCount below the number
    of matches keeps exactly the keepCount entries of largest timestamp
    (the sorted list is a permutation of the matches, the kept prefix has
    exactly keepCount entries, every kept timestamp is strictly larger
    than every deleted one) and deletes each remaining archive together
    with its .sha256 sidecar; with keepCount at least the number of
    matches nothing is deleted.  Both the local-directory and the s3
    variants are covered. -/
theorem cleanup_keeps_newest (alg : String) (count : Nat)
    (dir keys : List String)
    (hwfL : ∀ f ∈ dir.filter (fun f => codeMatch alg f),
      (extractTimestamp f).isSome = true)
    (hdistL : (dir.filter (fun f => codeMatch alg f)).Pairwise
      (fun a b => extractTimestamp a ≠ extractTimestamp b))
    (hwfS : ∀ k ∈ keys.filter (fun k => codeMatch alg (lastComponent k)),
      (extractTimestamp (lastComponent k)).isSome = true)
    (hdistS : (keys.filter (fun k => codeMatch alg (lastComponent k))).Pairwise
      (fun a b =>
        extractTimestamp (lastComponent a) ≠
          extractTimestamp (lastComponent b))) :
    ((sortedBackupsL alg dir).Perm (dir.filter (fun f => codeMatch alg f))
      ∧ (count < (dir.filter (fun f => codeMatch alg f)).length →
          ((sortedBackupsL alg dir).take count).length = count
          ∧ ((sortedBackupsL alg dir).drop count).length
              = (dir.filter (fun f => codeMatch alg f)).length - count
          ∧ (∀ a ∈ (sortedBackupsL alg dir).take count,
              ∀ b ∈ (sortedBackupsL alg dir).drop count,
                tsOf extractTimestamp b < tsOf extractTimestamp a)
          ∧ cleanupLocalBackups alg count dir
              = ((sortedBackupsL alg dir).drop count).flatMap
                  (fun f => [f, f ++ ".sha256"]))
      ∧ ((dir.filter (fun f => codeMatch alg f)).length ≤ count →
          cleanupLocalBackups alg count dir = []))
    ∧ ((sortedBackupsS alg keys).Perm
        (keys.filter (fun k => codeMatch alg (lastComponent k)))
      ∧ (count < (keys.filter (fun k => codeMatch alg (lastComponent k))).length →
          ((sortedBackupsS alg keys).take count).length = count
          ∧ ((sortedBackupsS alg keys).drop count).length
              = (keys.filter (fun k => codeMatch alg (lastComponent k))).length
                  - count
          ∧ (∀ a ∈ (sortedBackupsS alg keys).take count,
              ∀ b ∈ (sortedBackupsS alg keys).drop count,
                tsOf (fun k => extractTimestamp (lastComponent k)) b
                  < tsOf (fun k => extractTimestamp (lastComponent k)) a)
          ∧ cleanupS3Backups alg count keys
              = ((sortedBackupsS alg keys).drop count).flatMap
                  (fun f => [f, f ++ ".sha256"]))
      ∧ ((keys.filter (fun k => codeMatch alg (lastComponent k))).length ≤ count →
          cleanupS3Backups alg count keys = [])) := by
  constructor
  · have hperm : (sortedBackupsL alg dir).Perm
        (dir.filter (fun f => codeMatch alg f)) :=
      jsSort_perm (cmpBy extractTimestamp) (dir.filter (fun f => codeMatch alg f))
    have hsort : (sortedBackupsL alg dir).Pairwise
        (fun a b => tsOf extractTimestamp b < tsOf extractTimestamp a) :=
      jsSort_pairwise extractTimestamp
        (dir.filter (fun f => codeMatch alg f)) hwfL hdistL
    refine ⟨hperm, fun hc => ⟨?_, ?_, ?_, ?_⟩, fun hle => ?_⟩
    · rw [List.length_take, hperm.length_eq]; omega
    · rw [List.length_drop, hperm.length_eq]
    · exact pairwise_take_drop hsort count
    · simp only [cleanupLocalBackups, sortedBackupsL]
      rw [if_neg (not_le.mpr hc)]
    · simp only [cleanupLocalBackups]
      rw [if_pos hle]
  · have hperm : (sortedBackupsS alg keys).Perm
        (keys.filter (fun k => codeMatch alg (lastComponent k))) :=
      jsSort_perm (cmpBy (fun k => extractTimestamp (lastComponent k)))
        (keys.filter (fun k => codeMatch alg (lastComponent k)))
    have hsort : (sortedBackupsS alg keys).Pairwise
        (fun a b => tsOf (fun k => extractTimestamp (lastComponent k)) b
          < tsOf (fun k => extractTimestamp (lastComponent k)) a) :=
      jsSort_pairwise (fun k => extractTimestamp (lastComponent k))
        (keys.filter (fun k => codeMatch alg (lastComponent k))) hwfS hdistS
    refine ⟨hperm, fun hc => ⟨?_, ?_, ?_, ?_⟩, fun hle => ?_⟩
    · rw [List.length_take, hperm.length_eq]; omega
    · rw [List.length_drop, hperm.length_eq]
    · exact pairwise_take_drop hsort count
    · simp only [cleanupS3Backups, sortedBackupsS]
      rw [if_neg (not_le.mpr hc)]
    · simp only [cleanupS3Backups]
      rw [if_pos hle]

/-- Witness for C5: two archives with distinct timestamps, keep count 1;
    the deletion list is the dropped half of the descending sort with its
    sidecar, and the kept entry dominates the dropped one. -/
theorem cleanup_keeps_newest_witness :
    cleanupLocalBackups "zstd" 1
        ["backup_2020-01-01T00-00-00.tar.zstd.crypt",
         "backup_2021-02-02T00-00-00.tar.zstd.crypt"]
      = ((sortedBackupsL "zstd"
          ["backup_2020-01-01T00-00-00.tar.zstd.crypt",
           "backup_2021-02-02T00-00-00.tar.zstd.crypt"]).drop 1).flatMap
          (fun f => [f, f ++ ".sha256"])
    ∧ (∀ a ∈ (sortedBackupsL "zstd"
          ["backup_2020-01-01T00-00-00.tar.zstd.crypt",
           "backup_2021-02-02T00-00-00.tar.zstd.crypt"]).take 1,
        ∀ b ∈ (sortedBackupsL "zstd"
          ["backup_2020-01-01T00-00-00.tar.zstd.crypt",
           "backup_2021-02-02T00-00-00.tar.zstd.crypt"]).drop 1,
          tsOf extractTimestamp b < tsOf extractTimestamp a)
    ∧ cleanupS3Backups "zstd" 2
        ["p/backup_2020-01-01T00-00-00.tar.zstd.crypt",
         "p/backup_2021-02-02T00-00-00.tar.zstd.crypt"] = [] := by
  have h := cleanup_keeps_newest "zstd" 1
    ["backup_2020-01-01T00-00-00.tar.zstd.crypt",
     "backup_2021-02-02T00-00-00.tar.zstd.crypt"]
    ["p/backup_2020-01-01T00-00-00.tar.zstd.crypt",
     "p/backup_2021-02-02T00-00-00.tar.zstd.crypt"]
    (by decide) (by decide) (by decide) (by decide)
  have h2 := cleanup_keeps_newest "zstd" 2
    ["backup_2020-01-01T00-00-00.tar.zstd.crypt",
     "backup_2021-02-02T00-00-00.tar.zstd.crypt"]
    ["p/backup_2020-01-01T00-00-00.tar.zstd.crypt",
     "p/backup_2021-02-02T00-00-00.tar.zstd.crypt"]
    (by decide) (by decide) (by decide) (by decide)
  exact ⟨(h.1.2.1 (by decide)).2.2.2, (h.1.2.1 (by decide)).2.2.1,
    h2.2.2.2 (by decide)⟩

/-- C7 counterexample: a matching name without a parsable timestamp that
    is listed first is ranked newest by the stable sort - it heads the
    descending order and cleanup with keep count 1 retains it while
    deleting the genuinely timestamped archive. -/
theorem malformed_ranked_newest_cex :
    extractTimestamp "backup_.tar.zstd.crypt" = Option.none
    ∧ codeMatch "zstd" "backup_.tar.zstd.crypt" = true
    ∧ (sortedBackupsL "zstd"
        ["backup_.tar.zstd.crypt",
         "backup_2020-01-01T00-00-00.tar.zstd.crypt"]).head?
      = Option.some "backup_.tar.zstd.crypt"
    ∧ cleanupLocalBackups "zstd" 1
        ["backup_.tar.zstd.crypt",
         "backup_2020-01-01T00-00-00.tar.zstd.crypt"]
      = ["backup_2020-01-01T00-00-00.tar.zstd.crypt",
         "backup_2020-01-01T00-00-00.tar.zstd.crypt.sha256"] := by
  decide

/-- C7 amended: entries whose name cannot be parsed for a timestamp are
    excluded from ordering comparisons - the comparator returns 0 against
    every other entry, in both directions - and the sort still terminates
    on a permutation of its input (no crash, no lost entry); such entries
    simply keep their listing rank, so one listed first stays newest. -/
theorem malformed_excluded_from_ordering (m x : String)
    (files : List String) (hm : extractTimestamp m = Option.none) :
    cmpBy extractTimestamp m x = 0
    ∧ cmpBy extractTimestamp x m = 0
    ∧ (jsSort (cmpBy extractTimestamp) files).Perm files :=
  ⟨cmpBy_none_left extractTimestamp m x hm,
   cmpBy_none_right extractTimestamp x m hm,
   jsSort_perm (cmpBy extractTimestamp) files⟩

/-- Witness for the amended C7 statement. -/
theorem malformed_excluded_from_ordering_witness :
    cmpBy extractTimestamp "backup_.tar.zstd.crypt"
        "backup_2021-02-02T00-00-00.tar.zstd.crypt" = 0
    ∧ cmpBy extractTimestamp "backup_2021-02-02T00-00-00.tar.zstd.crypt"
        "backup_.tar.zstd.crypt" = 0
    ∧ (jsSort (cmpBy extractTimestamp)
        ["backup_.tar.zstd.crypt",
         "backup_2021-02-02T00-00-00.tar.zstd.crypt"]).Perm
        ["backup_.tar.zstd.crypt",
         "backup_2021-02-02T00-00-00.tar.zstd.crypt"] :=
  malformed_excluded_from_ordering "backup_.tar.zstd.crypt"
    "backup_2021-02-02T00-00-00.tar.zstd.crypt"
    ["backup_.tar.zstd.crypt",
     "backup_2021-02-02T00-00-00.tar.zstd.crypt"] (by decide)

/-- C10 counterexample: because the glob is converted to a regular
    expression without escaping its dots, the name backup_XtarXzstdXcrypt
    is accepted by the cleanup filter and deleted, although it does not
    match the archive pattern backup_*.tar.zstd.crypt read with literal
    dots. -/
theorem cleanup_deletes_nonmatching_cex :
    "backup_XtarXzstdXcrypt" ∈ cleanupLocalBackups "zstd" 1
      ["backup_2020-01-01T00-00-00.tar.zstd.crypt", "backup_XtarXzstdXcrypt"]
    ∧ claimPatternMatch "zstd" "backup_XtarXzstdXcrypt" = false := by
  decide

/-- C10 amended: cleanup only ever deletes names accepted by the filter it
    actually uses - the glob with unescaped dots, codeMatch - plus the
    .sha256 sidecars of exactly the deleted archives; every listed entry
    outside the deletion list survives cleanup unchanged.  Both the local
    and the s3 variants are covered. -/
theorem cleanup_frame (alg : String) (count : Nat) (dir keys : List String) :
    (∀ d ∈ cleanupLocalBackups alg count dir,
      (d ∈ dir ∧ codeMatch alg d = true)
      ∨ ∃ f, d = f ++ ".sha256" ∧ f ∈ dir ∧ codeMatch alg f = true
          ∧ f ∈ cleanupLocalBackups alg count dir)
    ∧ (∀ d ∈ cleanupS3Backups alg count keys,
      (d ∈ keys ∧ codeMatch alg (lastComponent d) = true)
      ∨ ∃ f, d = f ++ ".sha256" ∧ f ∈ keys
          ∧ codeMatch alg (lastComponent f) = true
          ∧ f ∈ cleanupS3Backups alg count keys)
    ∧ (∀ f ∈ dir, f ∉ cleanupLocalBackups alg count dir →
        f ∈ applyCleanup dir (Except.ok (cleanupLocalBackups alg count dir))) := by
  refine ⟨?_, ?_, ?_⟩
  · intro d hd
    by_cases hle : (dir.filter (fun f => codeMatch alg f)).length ≤ count
    · simp only [cleanupLocalBackups] at hd
      rw [if_pos hle] at hd
      simp at hd
    · simp only [cleanupLocalBackups] at hd
      rw [if_neg hle] at hd
      rw [List.mem_flatMap] at hd
      obtain ⟨f, hfmem, hdf⟩ := hd
      have hf := mem_drop_sort_filter (cmpBy extractTimestamp)
        (fun f => codeMatch alg f) dir count f hfmem
      rcases List.mem_cons.mp hdf with rfl | hdf2
      · exact Or.inl hf
      · refine Or.inr ⟨f, ?_, hf.1, hf.2, ?_⟩
        · simpa using hdf2
        · simp only [cleanupLocalBackups]
          rw [if_neg hle, List.mem_flatMap]
          exact ⟨f, hfmem, by simp⟩
  · intro d hd
    by_cases hle :
        (keys.filter (fun k => codeMatch alg (lastComponent k))).length ≤ count
    · simp only [cleanupS3Backups] at hd
      rw [if_pos hle] at hd
      simp at hd
    · simp only [cleanupS3Backups] at hd
      rw [if_neg hle] at hd
      rw [List.mem_flatMap] at hd
      obtain ⟨f, hfmem, hdf⟩ := hd
      have hf := mem_drop_sort_filter
        (cmpBy (fun k => extractTimestamp (lastComponent k)))
        (fun k => codeMatch alg (lastComponent k)) keys count f hfmem
      rcases List.mem_cons.mp hdf with rfl | hdf2
      · exact Or.inl hf
      · refine Or.inr ⟨f, ?_, hf.1, hf.2, ?_⟩
        · simpa using hdf2
        · simp only [cleanupS3Backups]
          rw [if_neg hle, List.mem_flatMap]
          exact ⟨f, hfmem, by simp⟩
  · intro f hf hnot
    simp only [applyCleanup, List.mem_filter]
    exact ⟨hf, by simpa using hnot⟩

/-- Witness for the amended C10 statement at a concrete deletion. -/
theorem cleanup_frame_witness :
    ("backup_2020-01-01T00-00-00.tar.zstd.crypt"
        ∈ ["backup_.tar.zstd.crypt",
           "backup_2020-01-01T00-00-00.tar.zstd.crypt"]
      ∧ codeMatch "zstd" "backup_2020-01-01T00-00-00.tar.zstd.crypt" = true)
    ∨ ∃ f, "backup_2020-01-01T00-00-00.tar.zstd.crypt" = f ++ ".sha256"
        ∧ f ∈ ["backup_.tar.zstd.crypt",
               "backup_2020-01-01T00-00-00.tar.zstd.crypt"]
        ∧ codeMatch "zstd" f = true
        ∧ f ∈ cleanupLocalBackups "zstd" 1
            ["backup_.tar.zstd.crypt",
             "backup_2020-01-01T00-00-00.tar.zstd.crypt"] :=
  (cleanup_frame "zstd" 1
    ["backup_.tar.zstd.crypt",
     "backup_2020-01-01T00-00-00.tar.zstd.crypt"] []).1
    "backup_2020-01-01T00-00-00.tar.zstd.crypt" (by decide)

end Bunchive
